import Mathlib

/-!
Verification of the Claude Code activity-report tool (`claude-activity.py`).

The Python source is shallowly embedded:
  * one decoded JSONL line is an `Option JValue` (`none` stands for a blank or
    undecodable line, which the program skips identically);
  * `datetime` values are `DateTime` records: an unbounded day count plus
    time-of-day fields and an optional UTC-offset (seconds); `datetime.now()`
    becomes an explicit `now` argument;
  * Python `float` cost arithmetic is carried out exactly in `ℚ`;
  * a Python `dict` is an insertion-ordered association list; keys are compared
    with `pyKeyEq`, which mirrors `==` on the hashable JSON scalars (including
    the `True == 1` collapse).  Unhashable keys never enter a dict: the
    program raises there, which the embedding models as an aborting outcome.
-/

namespace ClaudeActivity

/-- A decoded JSON value, as produced by `json.loads` for one line.  Numbers
are modelled as integers (the consumed schema uses integer token counts).
Objects are the resulting Python dicts, so their key lists are duplicate-free
by construction. -/
inductive JValue where
  | null
  | bool (b : Bool)
  | num (n : Int)
  | str (s : String)
  | arr (elems : List JValue)
  | obj (fields : List (String × JValue))

/-- Python `==` on the hashable JSON scalars: `True == 1`, `False == 0`.
Lists and dicts are unhashable, so they never take part in a dict-key
comparison; the function returns `false` for them. -/
def pyKeyEq : JValue → JValue → Bool
  | .null, .null => true
  | .bool a, .bool b => a == b
  | .bool a, .num n => (if a then (1 : Int) else 0) == n
  | .num n, .bool b => n == (if b then (1 : Int) else 0)
  | .num a, .num b => a == b
  | .str a, .str b => a == b
  | _, _ => false

/-- Python truthiness of a JSON value. -/
def JValue.isTruthy : JValue → Bool
  | .null => false
  | .bool b => b
  | .num n => n != 0
  | .str s => s != ""
  | .arr xs => !xs.isEmpty
  | .obj fs => !fs.isEmpty

/-- Lists and dicts cannot be dict keys (`TypeError: unhashable`). -/
def JValue.isUnhashable : JValue → Bool
  | .arr _ => true
  | .obj _ => true
  | _ => false

def lookupFields : List (String × JValue) → String → Option JValue
  | [], _ => none
  | (k, v) :: rest, key => if k = key then some v else lookupFields rest key

/-- `d.get(key)` on a decoded object; `none` both when the key is absent and
when the value is not an object (the caller handles the raised attribute
error separately). -/
def JValue.get (v : JValue) (key : String) : Option JValue :=
  match v with
  | .obj fields => lookupFields fields key
  | _ => none

/-- First-match association-list lookup under an explicit key equality,
modelling `d[k]` / `d.get(k)` on an insertion-ordered dict. -/
def alookup {κ α : Type} (eq : κ → κ → Bool) : List (κ × α) → κ → Option α
  | [], _ => none
  | (k', v) :: rest, k => if eq k' k then some v else alookup eq rest k

/-- `d[k] = v` on an insertion-ordered dict: overwrite the first matching
entry in place (keeping the stored key object), else append. -/
def aupsert {κ α : Type} (eq : κ → κ → Bool) : List (κ × α) → κ → α → List (κ × α)
  | [], k, v => [(k, v)]
  | (k', v') :: rest, k, v =>
    if eq k' k then (k', v) :: rest else (k', v') :: aupsert eq rest k v

def strEq (a b : String) : Bool := a == b

/-- A Python `datetime`: a day count (days since 1970-01-01, unbounded) plus
wall-clock fields, and `tzinfo` as an optional fixed UTC offset in seconds
(`none` = naive). -/
structure DateTime where
  day : Int
  hour : Nat
  minute : Nat
  second : Nat
  microsecond : Nat
  tzinfo : Option Int
deriving DecidableEq

/-- The instant as microseconds (ignoring `tzinfo`), for naive comparison. -/
def DateTime.toMicros (t : DateTime) : Int :=
  t.day * 86400000000 +
    (((t.hour * 60 + t.minute) * 60 + t.second) * 1000000 + t.microsecond : Nat)

/-- Python `<` on datetimes: defined for naive/naive and aware/aware pairs
(aware pairs compare by UTC instant); a naive/aware pair raises `TypeError`,
modelled as `none`. -/
def DateTime.lt? (a b : DateTime) : Option Bool :=
  match a.tzinfo, b.tzinfo with
  | none, none => some (decide (a.toMicros < b.toMicros))
  | some x, some y =>
      some (decide (a.toMicros - x * 1000000 < b.toMicros - y * 1000000))
  | _, _ => none

/-- `t - timedelta(days=n)`: whole-day subtraction keeps the time of day. -/
def DateTime.subDays (t : DateTime) (n : Int) : DateTime :=
  { t with day := t.day - n }

/-- `t.replace(hour=0, minute=0, second=0, microsecond=0)`. -/
def DateTime.replaceMidnight (t : DateTime) : DateTime :=
  { t with hour := 0, minute := 0, second := 0, microsecond := 0 }

def parseDigit (c : Char) : Option Nat :=
  if c.isDigit then some (c.toNat - 48) else none

def parse2digits : List Char → Option (Nat × List Char)
  | c1 :: c2 :: rest =>
    match parseDigit c1, parseDigit c2 with
    | some d1, some d2 => some (d1 * 10 + d2, rest)
    | _, _ => none
  | _ => none

def parse4digits : List Char → Option (Nat × List Char)
  | c1 :: c2 :: c3 :: c4 :: rest =>
    match parseDigit c1, parseDigit c2, parseDigit c3, parseDigit c4 with
    | some d1, some d2, some d3, some d4 =>
        some (((d1 * 10 + d2) * 10 + d3) * 10 + d4, rest)
    | _, _, _, _ => none
  | _ => none

def expectChar (ch : Char) : List Char → Option (List Char)
  | c :: rest => if c = ch then some rest else none
  | [] => none

def isLeap (y : Nat) : Bool :=
  (y % 4 == 0 && y % 100 != 0) || y % 400 == 0

def daysInMonth (y m : Nat) : Nat :=
  if m = 2 then (if isLeap y then 29 else 28)
  else if m = 1 ∨ m = 3 ∨ m = 5 ∨ m = 7 ∨ m = 8 ∨ m = 10 ∨ m = 12 then 31
  else 30

/-- Days since 1970-01-01 of the Gregorian date `y-m-d` (valid for `y ≥ 1`).
Standard civil-calendar day-count algorithm. -/
def daysFromCivil (y m d : Nat) : Int :=
  let y' := if m ≤ 2 then y - 1 else y
  let era := y' / 400
  let yoe := y' % 400
  let mp := (m + 9) % 12
  let doy := (153 * mp + 2) / 5 + d - 1
  let doe := yoe * 365 + yoe / 4 - yoe / 100 + doy
  (era * 146097 + doe : Int) - 719468

/-- Fractional seconds: exactly 3 or 6 digits, value in microseconds. -/
def parseFrac (cs : List Char) : Option (Nat × List Char) :=
  let digits := cs.takeWhile Char.isDigit
  let rest := cs.dropWhile Char.isDigit
  if digits.length = 3 then
    some ((digits.foldl (fun a c => a * 10 + (c.toNat - 48)) 0) * 1000, rest)
  else if digits.length = 6 then
    some (digits.foldl (fun a c => a * 10 + (c.toNat - 48)) 0, rest)
  else none

/-- The time-of-day part `HH[:MM[:SS[.fff[fff]]]]` of an ISO string. -/
def parseTimePart (cs : List Char) : Option (Nat × Nat × Nat × Nat × List Char) := do
  let (h, r1) ← parse2digits cs
  if h ≥ 24 then none else
  match r1 with
  | ':' :: r2 => do
    let (mi, r3) ← parse2digits r2
    if mi ≥ 60 then none else
    match r3 with
    | ':' :: r4 => do
      let (s, r5) ← parse2digits r4
      if s ≥ 60 then none else
      match r5 with
      | '.' :: r6 => do
        let (us, r7) ← parseFrac r6
        pure (h, mi, s, us, r7)
      | _ => pure (h, mi, s, 0, r5)
    | _ => pure (h, mi, 0, 0, r3)
  | _ => pure (h, 0, 0, 0, r1)

/-- UTC-offset magnitude `HH:MM[:SS]` in seconds; the whole offset must stay
below 24 hours. -/
def parseTzMag (cs : List Char) : Option Int := do
  let (h, r1) ← parse2digits cs
  let r2 ← expectChar ':' r1
  let (m, r3) ← parse2digits r2
  match r3 with
  | [] => if h * 3600 + m * 60 < 86400 then pure (h * 3600 + m * 60) else none
  | ':' :: r4 => do
    let (s, r5) ← parse2digits r4
    match r5 with
    | [] => if h * 3600 + m * 60 + s < 86400 then pure (h * 3600 + m * 60 + s) else none
    | _ => none
  | _ => none

/-- Trailing timezone designator: absent (naive), or `±HH:MM[:SS]`. -/
def parseTz : List Char → Option (Option Int)
  | [] => some none
  | '+' :: rest => (parseTzMag rest).map (fun off => some off)
  | '-' :: rest => (parseTzMag rest).map (fun off => some (-off))
  | _ => none

/-- `datetime.fromisoformat` on a character list: `YYYY-MM-DD` optionally
followed by a one-character separator and `HH[:MM[:SS[.fff[fff]]]]` and an
optional `±HH:MM[:SS]` offset (the format `datetime.isoformat` emits). -/
def fromisoformatList? (cs : List Char) : Option DateTime := do
  let (y, r1) ← parse4digits cs
  let r2 ← expectChar '-' r1
  let (mo, r3) ← parse2digits r2
  let r4 ← expectChar '-' r3
  let (d, r5) ← parse2digits r4
  if 1 ≤ y ∧ 1 ≤ mo ∧ mo ≤ 12 ∧ 1 ≤ d ∧ d ≤ daysInMonth y mo then
    match r5 with
    | [] => pure ⟨daysFromCivil y mo d, 0, 0, 0, 0, none⟩
    | _sep :: tr => do
      let (h, mi, s, us, tr2) ← parseTimePart tr
      let tz ← parseTz tr2
      pure ⟨daysFromCivil y mo d, h, mi, s, us, tz⟩
  else none

def fromisoformat? (s : String) : Option DateTime :=
  fromisoformatList? s.toList

/-- `s.replace('Z', '+00:00')`: every `Z` is replaced. -/
def replaceZ (s : String) : String :=
  String.mk ((s.toList.map
    (fun c => if c = 'Z' then ['+', '0', '0', ':', '0', '0'] else [c])).flatten)

/-- Digit run with Python's underscore rule (an underscore must sit between
two digits); trailing ASCII whitespace is accepted, as `int()` strips it. -/
def parseDigitsWs : List Char → Nat → Bool → Option Nat
  | [], acc, lastDigit => if lastDigit then some acc else none
  | c :: rest, acc, lastDigit =>
    if c.isDigit then parseDigitsWs rest (acc * 10 + (c.toNat - 48)) true
    else if c = '_' then
      (if lastDigit then parseDigitsWs rest acc false else none)
    else if c.isWhitespace then
      (if lastDigit && rest.all Char.isWhitespace then some acc else none)
    else none

def pyIntCore : List Char → Option Int
  | c :: rest =>
    if c = '+' then (parseDigitsWs rest 0 false).map Int.ofNat
    else if c = '-' then (parseDigitsWs rest 0 false).map (fun n => -(Int.ofNat n))
    else (parseDigitsWs (c :: rest) 0 false).map Int.ofNat
  | [] => none

/-- Python `int(s)`: optional surrounding whitespace, optional sign, digits. -/
def pyInt? (s : String) : Option Int :=
  pyIntCore (s.toList.dropWhile Char.isWhitespace)

/-- The exceptions `parse_since` can terminate with: the `ValueError` it
raises itself, or the `OverflowError` from `timedelta`/`datetime`
arithmetic — the handler at line 51 catches only `ValueError`, so the
overflow propagates uncaught. -/
inductive PyError where
  | valueError (msg : String)
  | overflowError
deriving DecidableEq

/-- The first representable day: `datetime.min` is 0001-01-01. -/
def pythonMinDay : Int := daysFromCivil 1 1 1

/-- The last representable day: `datetime.max` is 9999-12-31. -/
def pythonMaxDay : Int := daysFromCivil 9999 12 31

/-- `parse_since`: turn the `--since` argument into a cutoff `datetime`;
`now` is the value of `datetime.now()` (always naive in the program).

In the day-count branch the user-supplied count is unbounded, so Python's
arithmetic limits are modelled exactly: `timedelta(days=n)` requires
`|n| ≤ 999999999`, and the subtracted result must stay within `datetime`'s
year 1–9999 range; either violation raises `OverflowError`.  The named
branches subtract at most 30 days from `datetime.now()`, which is always
millennia away from both bounds, so their subtraction stays total. -/
def parse_since (now : DateTime) (since_str : String) : Except PyError DateTime :=
  if since_str = "yesterday" then .ok ((now.subDays 1).replaceMidnight)
  else if since_str = "today" then .ok now.replaceMidnight
  else if since_str = "week" then .ok ((now.subDays 7).replaceMidnight)
  else if since_str = "month" then .ok ((now.subDays 30).replaceMidnight)
  else
    match fromisoformat? since_str with
    | some dt => .ok dt
    | none =>
      match pyInt? since_str with
      | some days =>
        if days < -999999999 ∨ 999999999 < days then .error .overflowError
        else if now.day - days < pythonMinDay ∨ pythonMaxDay < now.day - days then
          .error .overflowError
        else .ok ((now.subDays days).replaceMidnight)
      | none => .error (.valueError ("Cannot parse date: " ++ since_str))

/-- The per-session accumulator of `parse_session_file`.  The dict literal in
the source always carries every key, so the record models it exactly;
`model` and `git_branch` hold the raw JSON values last assigned (Python
`None` is `none`). -/
structure Session where
  messages : Nat
  input_tokens : Int
  output_tokens : Int
  cache_read_tokens : Int
  cache_write_tokens : Int
  start_time : Option DateTime
  end_time : Option DateTime
  model : Option JValue
  git_branch : Option JValue

def defaultSession : Session :=
  ⟨0, 0, 0, 0, 0, none, none, none, none⟩

/-- The session dict: insertion-ordered, keyed by the raw `sessionId` value. -/
abbrev SessionMap := List (JValue × Session)

/-- What one line does before any session state is touched:
  * `skip` — the line is blank/undecodable, has no usable timestamp, or is
    filtered out by the cutoff (`continue` in the source);
  * `abort` — an uncaught exception escapes to the per-file handler (the
    entry is not a dict, the naive/aware comparison raises, or the session
    key is unhashable) before the sessions dict is touched;
  * `record key ts entry` — the record survives the filter and will update
    session `key` with timestamp `ts`. -/
inductive LineOutcome where
  | skip
  | abort
  | record (key : JValue) (ts : DateTime) (entry : JValue)

def classifyLine (since : DateTime) (line : Option JValue) : LineOutcome :=
  match line with
  | none => .skip
  | some entry =>
    match entry with
    | .obj _ =>
      match entry.get "timestamp" with
      | none => .skip
      | some tv =>
        if tv.isTruthy then
          match tv with
          | .str tstr =>
            match fromisoformat? (replaceZ tstr) with
            | none => .skip
            | some ts0 =>
              let timestamp : DateTime := { ts0 with tzinfo := none }
              match DateTime.lt? timestamp since with
              | none => .abort
              | some true => .skip
              | some false =>
                let session_id := (entry.get "sessionId").getD (.str "unknown")
                if session_id.isUnhashable then .abort
                else .record session_id timestamp entry
          | _ => .skip
        else .skip
    | _ => .abort

/-- Lines 112–115 of the source: `if start_time is None or ts < start_time`
widen the start bound, then likewise for the end bound. -/
def updateTimes (ts : DateTime) (s : Session) : Session :=
  let s1 :=
    if s.start_time.elim true (fun st => decide (ts.toMicros < st.toMicros)) then
      { s with start_time := some ts }
    else s
  if s1.end_time.elim true (fun et => decide (et.toMicros < ts.toMicros)) then
    { s1 with end_time := some ts }
  else s1

/-- Lines 117–119 of the source: last-write-wins git branch. -/
def updateBranch (entry : JValue) (s : Session) : Session :=
  match entry.get "gitBranch" with
  | some gb => if gb.isTruthy then { s with git_branch := some gb } else s
  | none => s

/-- The effect of the assistant-usage block (lines 122–133) on a session:
the increments actually applied before any exception, the model value to
store, and whether the block raises (a non-dict `message` or `usage`, or a
non-numeric token count) — in which case the updates so far remain visible
in the dict and the file is abandoned. -/
structure AssistDelta where
  msgs : Nat
  model : Option JValue
  dIn : Int
  dOut : Int
  dCr : Int
  dCw : Int
  aborts : Bool

def noDelta : AssistDelta := ⟨0, none, 0, 0, 0, 0, false⟩

/-- Python `int` addition of a usage field value: JSON integers add, booleans
coerce (`True` is `1`); any other type raises `TypeError`. -/
def addInt : JValue → Option Int
  | .num n => some n
  | .bool b => some (if b then 1 else 0)
  | _ => none

def isAssistant (entry : JValue) : Bool :=
  (match entry.get "type" with
   | some (.str t) => t == "assistant"
   | _ => false) && (entry.get "message").isSome

def assistantUpdate (entry : JValue) : AssistDelta :=
  if isAssistant entry then
    match (entry.get "message").getD .null with
    | .obj mf =>
      let msg := JValue.obj mf
      let mdl : Option JValue :=
        match msg.get "model" with
        | some mv => if mv.isTruthy then some mv else none
        | none => none
      match msg.get "usage" with
      | none => ⟨1, mdl, 0, 0, 0, 0, false⟩
      | some (.obj uf) =>
        let u := JValue.obj uf
        match addInt ((u.get "input_tokens").getD (.num 0)) with
        | none => ⟨1, mdl, 0, 0, 0, 0, true⟩
        | some n1 =>
          match addInt ((u.get "output_tokens").getD (.num 0)) with
          | none => ⟨1, mdl, n1, 0, 0, 0, true⟩
          | some n2 =>
            match addInt ((u.get "cache_read_input_tokens").getD (.num 0)) with
            | none => ⟨1, mdl, n1, n2, 0, 0, true⟩
            | some n3 =>
              match addInt ((u.get "cache_creation_input_tokens").getD (.num 0)) with
              | none => ⟨1, mdl, n1, n2, n3, 0, true⟩
              | some n4 => ⟨1, mdl, n1, n2, n3, n4, false⟩
      | some _ => ⟨1, mdl, 0, 0, 0, 0, true⟩
    | _ => ⟨1, none, 0, 0, 0, 0, true⟩
  else noDelta

def applyAssist (d : AssistDelta) (s : Session) : Session :=
  { s with
    messages := s.messages + d.msgs
    model := match d.model with | some m => some m | none => s.model
    input_tokens := s.input_tokens + d.dIn
    output_tokens := s.output_tokens + d.dOut
    cache_read_tokens := s.cache_read_tokens + d.dCr
    cache_write_tokens := s.cache_write_tokens + d.dCw }

/-- Process one line against the sessions dict.  `Except.error` is a raised
exception reaching the per-file handler: the dict (with every mutation made
before the raise, as Python mutates the session in place) is what the
handler returns. -/
def processEntry (since : DateTime) (sessions : SessionMap) (line : Option JValue) :
    Except SessionMap SessionMap :=
  match classifyLine since line with
  | .skip => .ok sessions
  | .abort => .error sessions
  | .record key ts entry =>
    let d := assistantUpdate entry
    let s2 := applyAssist d (updateBranch entry
      (updateTimes ts ((alookup pyKeyEq sessions key).getD defaultSession)))
    if d.aborts then .error (aupsert pyKeyEq sessions key s2)
    else .ok (aupsert pyKeyEq sessions key s2)

def parseGo (since : DateTime) : List (Option JValue) → SessionMap → SessionMap
  | [], acc => acc
  | l :: rest, acc =>
    match processEntry since acc l with
    | .ok acc' => parseGo since rest acc'
    | .error acc' => acc'

/-- `parse_session_file`: the file is the list of its decoded lines. -/
def parse_session_file (lines : List (Option JValue)) (since : DateTime) : SessionMap :=
  parseGo since lines []

/-- The (key, timestamp) pairs of the records the parser actually folds into
the sessions dict: the surviving in-window records, cut off at the line
whose processing raises. -/
def processedContribs (since : DateTime) : List (Option JValue) → List (JValue × DateTime)
  | [] => []
  | l :: rest =>
    match classifyLine since l with
    | .skip => processedContribs since rest
    | .abort => []
    | .record key ts entry =>
      (key, ts) ::
        (if (assistantUpdate entry).aborts then [] else processedContribs since rest)

/-- The surviving timestamps belonging to session `k`. -/
def contribsFor (k : JValue) (cs : List (JValue × DateTime)) : List DateTime :=
  (cs.filter (fun p => pyKeyEq p.1 k)).map Prod.snd

/-- Per-million-token rates for one model (exact rationals stand in for the
Python floats). -/
structure PriceEntry where
  input : ℚ
  output : ℚ
  cache_read : ℚ
  cache_write : ℚ

def PRICING_default : PriceEntry := ⟨3.00, 15.00, 0.30, 3.75⟩

def PRICING : List (String × PriceEntry) :=
  [("claude-opus-4-5-20251101", ⟨15.00, 75.00, 1.50, 18.75⟩),
   ("claude-sonnet-4-20250514", ⟨3.00, 15.00, 0.30, 3.75⟩),
   ("claude-3-5-sonnet-20241022", ⟨3.00, 15.00, 0.30, 3.75⟩),
   ("claude-3-5-haiku-20241022", ⟨0.80, 4.00, 0.08, 1.00⟩),
   ("default", PRICING_default)]

/-- `PRICING.get(model, PRICING["default"])`. -/
def get_pricing (model : String) : PriceEntry :=
  (alookup strEq PRICING model).getD PRICING_default

/-- `calculate_cost`.  `session.get("model", "default")` always finds the
`"model"` key (the session literal carries it), so the looked-up value is
the stored one; a stored Python `None` or non-string value then misses in
`PRICING` and falls back to the default entry. -/
def calculate_cost (session : Session) : ℚ :=
  let pricing :=
    match session.model with
    | some (.str m) => get_pricing m
    | _ => PRICING_default
  let input_cost := ((session.input_tokens : ℚ) / 1000000) * pricing.input
  let output_cost := ((session.output_tokens : ℚ) / 1000000) * pricing.output
  let cache_read_cost := ((session.cache_read_tokens : ℚ) / 1000000) * pricing.cache_read
  let cache_write_cost := ((session.cache_write_tokens : ℚ) / 1000000) * pricing.cache_write
  input_cost + output_cost + cache_read_cost + cache_write_cost

/-- Python `s.split(sep)` for a one-character separator: empty parts kept. -/
def splitOn (sep : Char) : List Char → List (List Char)
  | [] => [[]]
  | c :: rest =>
    match splitOn sep rest with
    | [] => [[]]
    | g :: gs => if c = sep then [] :: g :: gs else (c :: g) :: gs

/-- Python `'-'.join(parts)`. -/
def joinDash : List String → String
  | [] => ""
  | [p] => p
  | p :: rest => p ++ "-" ++ joinDash rest

def skip_words : List String := ["", "home", "user", "Users", "root"]

/-- `format_project_name`: drop the `'-'`-separated components that are in
the skip set, and fall back to the raw name when nothing remains. -/
def format_project_name (encoded_name : String) : String :=
  let parts := (splitOn '-' encoded_name.toList).map (fun l => String.mk l)
  let significant_parts := parts.filter (fun part => part ∉ skip_words)
  if significant_parts ≠ [] then joinDash significant_parts else encoded_name

/-- One entry of the global session registry `all_sessions`. -/
structure SessionOut where
  project : String
  messages : Nat
  input_tokens : Int
  output_tokens : Int
  cache_read_tokens : Int
  cache_write_tokens : Int
  start_time : Option DateTime
  end_time : Option DateTime
  model : Option JValue
  git_branch : Option JValue
  cost : ℚ

/-- One per-project aggregate.  The model set is a list with Python-set
insertion (add only when no `==`-equal member exists). -/
structure ProjectStats where
  sessions : Nat
  messages : Nat
  input_tokens : Int
  output_tokens : Int
  cache_read_tokens : Int
  cache_write_tokens : Int
  cost : ℚ
  models : List JValue

def defaultProjectStats : ProjectStats := ⟨0, 0, 0, 0, 0, 0, 0, []⟩

def setAdd (xs : List JValue) (m : JValue) : List JValue :=
  if xs.any (fun x => pyKeyEq x m) then xs else xs ++ [m]

structure Totals where
  sessions : Nat
  messages : Nat
  input_tokens : Int
  output_tokens : Int
  cache_read_tokens : Int
  cache_write_tokens : Int
  cost : ℚ

/-- The three accumulators of `main`'s rollup loop. -/
structure RollupState where
  all_sessions : List (JValue × SessionOut)
  project_stats : List (String × ProjectStats)
  total_stats : Totals

def initState : RollupState := ⟨[], [], ⟨0, 0, 0, 0, 0, 0, 0⟩⟩

/-- The body of `main`'s inner loop for one `(session_id, session)` item. -/
def foldSession (project_name : String) (st : RollupState) (kv : JValue × Session) :
    RollupState :=
  let session := kv.2
  if session.messages = 0 then st
  else
    let cost := calculate_cost session
    let readable := format_project_name project_name
    let out : SessionOut :=
      ⟨readable, session.messages, session.input_tokens, session.output_tokens,
        session.cache_read_tokens, session.cache_write_tokens,
        session.start_time, session.end_time, session.model, session.git_branch, cost⟩
    let ps := (alookup strEq st.project_stats readable).getD defaultProjectStats
    let ps' : ProjectStats :=
      { sessions := ps.sessions + 1
        messages := ps.messages + session.messages
        input_tokens := ps.input_tokens + session.input_tokens
        output_tokens := ps.output_tokens + session.output_tokens
        cache_read_tokens := ps.cache_read_tokens + session.cache_read_tokens
        cache_write_tokens := ps.cache_write_tokens + session.cache_write_tokens
        cost := ps.cost + cost
        models :=
          match session.model with
          | some m => if m.isTruthy then setAdd ps.models m else ps.models
          | none => ps.models }
    let t := st.total_stats
    ⟨aupsert pyKeyEq st.all_sessions kv.1 out,
      aupsert strEq st.project_stats readable ps',
      ⟨t.sessions + 1, t.messages + session.messages,
        t.input_tokens + session.input_tokens, t.output_tokens + session.output_tokens,
        t.cache_read_tokens + session.cache_read_tokens,
        t.cache_write_tokens + session.cache_write_tokens, t.cost + cost⟩⟩

/-- Parse one file and fold its sessions into the accumulators. -/
def foldFile (since : DateTime) (st : RollupState) (pf : String × List (Option JValue)) :
    RollupState :=
  (parse_session_file pf.2 since).foldl (foldSession pf.1) st

/-- `main`'s rollup over the discovered `(project_name, file)` pairs. -/
def rollup (since : DateTime) (files : List (String × List (Option JValue))) :
    RollupState :=
  files.foldl (foldFile since) initState

/-- A fixed naive instant used as `datetime.now()` in concrete instantiations. -/
def dtZero : DateTime := ⟨0, 0, 0, 0, 0, none⟩

/-- The test file of §8 of the spec: an undecodable line, a record with a
null timestamp, a record excluded by the cutoff, and one qualifying
assistant record for session `"s1"`. -/
def c2future : JValue :=
  .obj [("timestamp", .str "2099-01-01T00:00:00Z"), ("sessionId", .str "s1"),
        ("type", .str "assistant"),
        ("message", .obj [("model", .str "x"),
                          ("usage", .obj [("input_tokens", .num 7)])])]

def c2inWindow : JValue :=
  .obj [("timestamp", .str "2099-06-01T12:00:00Z"), ("sessionId", .str "s1"),
        ("type", .str "assistant"),
        ("message", .obj [("model", .str "claude-3-5-haiku-20241022"),
                          ("usage", .obj [("input_tokens", .num 1000),
                                          ("output_tokens", .num 500)])])]

def c2lines : List (Option JValue) :=
  [none, some (.obj [("timestamp", .null)]), some c2future, some c2inWindow]

/-- A cutoff that excludes `c2future` and admits only `c2inWindow`. -/
def c2cutoff : DateTime := ⟨daysFromCivil 2099 6 1, 0, 0, 0, 0, none⟩

def c2ts : DateTime := ⟨daysFromCivil 2099 6 1, 12, 0, 0, 0, none⟩

def c2session : Session :=
  ⟨1, 1000, 500, 0, 0, some c2ts, some c2ts,
    some (.str "claude-3-5-haiku-20241022"), none⟩

/-- A one-line file with a surviving record and no assistant message, for
concrete instantiations of the parser theorems. -/
def w9lines : List (Option JValue) :=
  [some (.obj [("timestamp", .str "2099-07-01T00:00:00")])]

def w9ts : DateTime := ⟨daysFromCivil 2099 7 1, 0, 0, 0, 0, none⟩

def w9session : Session := ⟨0, 0, 0, 0, 0, some w9ts, some w9ts, none, none⟩

/-- A one-line file whose single record is a qualifying assistant message
with an empty message object, for rollup instantiations. -/
def w5lines : List (Option JValue) :=
  [some (.obj [("timestamp", .str "2099-07-01T00:00:00"),
               ("type", .str "assistant"), ("message", .obj [])])]

def w5session : Session := ⟨1, 0, 0, 0, 0, some w9ts, some w9ts, none, none⟩

def w5out : SessionOut :=
  ⟨"proj", 1, 0, 0, 0, 0, some w9ts, some w9ts, none, none, calculate_cost w5session⟩

/-- The aware datetime `fromisoformat` yields for `2024-01-01T00:00:00+05:00`. -/
def c8aware : DateTime := ⟨daysFromCivil 2024 1 1, 0, 0, 0, 0, some 18000⟩

/-- C1 counterexample: `format_project_name` keeps the user-name components
`alice` and `bob` — they are not in the skip set — so the spec's expected
values `myrepo` and `tool-v2` are not produced. -/
theorem format_project_name_keeps_user_components :
    format_project_name "-home-alice-myrepo" = "alice-myrepo" ∧
    format_project_name "-home-alice-myrepo" ≠ "myrepo" ∧
    format_project_name "-Users-bob-tool-v2" = "bob-tool-v2" ∧
    format_project_name "-Users-bob-tool-v2" ≠ "tool-v2" :=
  ⟨rfl, by decide, rfl, by decide⟩

/-- C1 (amended): the encoded names `-home-alice-myrepo` and
`-Users-bob-tool-v2` format to `alice-myrepo` and `bob-tool-v2`: only the
components in the skip set `{'', home, user, Users, root}` are stripped,
wherever they occur, not every component before the repository name. -/
theorem format_project_name_path_examples :
    format_project_name "-home-alice-myrepo" = "alice-myrepo" ∧
    format_project_name "-Users-bob-tool-v2" = "bob-tool-v2" :=
  ⟨rfl, rfl⟩

/-- C2: on the four-line file (undecodable line, null timestamp, record below
the cutoff, qualifying haiku assistant record) the parser yields exactly the
session `s1` with one message, 1000 input tokens and 500 output tokens, and
its cost is (1000/1e6)·0.80 + (500/1e6)·4.00 = 0.0028. -/
theorem parse_session_file_haiku_example :
    parse_session_file c2lines c2cutoff = [(JValue.str "s1", c2session)] ∧
    c2session.messages = 1 ∧ c2session.input_tokens = 1000 ∧
    c2session.output_tokens = 500 ∧ calculate_cost c2session = 0.0028 := by
  refine ⟨rfl, rfl, rfl, rfl, ?_⟩
  have h : get_pricing "claude-3-5-haiku-20241022" = ⟨0.80, 4.00, 0.08, 1.00⟩ := rfl
  norm_num [calculate_cost, c2session, h]

/-- C6: whatever the token counters, a session with no model value, one with
a model absent from the price table, and one with the literal model
`"default"` are all priced from the `"default"` table entry, hence get the
same cost. -/
theorem calculate_cost_default_fallback (msgs : Nat) (a b c d : Int)
    (st et : Option DateTime) (gb : Option JValue) (m : String)
    (hm : alookup strEq PRICING m = none) :
    calculate_cost ⟨msgs, a, b, c, d, st, et, none, gb⟩ =
      calculate_cost ⟨msgs, a, b, c, d, st, et, some (.str "default"), gb⟩ ∧
    calculate_cost ⟨msgs, a, b, c, d, st, et, some (.str m), gb⟩ =
      calculate_cost ⟨msgs, a, b, c, d, st, et, some (.str "default"), gb⟩ := by
  constructor
  · rfl
  · simp only [calculate_cost, get_pricing, hm, Option.getD_none]
    rfl

/-- C6 witness: the fallback equalities at concrete token counters and the
unknown model `gpt-4`. -/
theorem calculate_cost_default_fallback_witness :
    calculate_cost ⟨2, 10, 20, 30, 40, none, none, none, none⟩ =
      calculate_cost ⟨2, 10, 20, 30, 40, none, none, some (.str "default"), none⟩ ∧
    calculate_cost ⟨2, 10, 20, 30, 40, none, none, some (.str "gpt-4"), none⟩ =
      calculate_cost ⟨2, 10, 20, 30, 40, none, none, some (.str "default"), none⟩ :=
  calculate_cost_default_fallback 2 10 20 30 40 none none none "gpt-4" rfl

/-- C7: for every `now`, `parse_since` maps `today` and `yesterday` to
midnights (all time-of-day fields zero) exactly one day apart, and `week` to
the midnight of the date seven days before `now`. -/
theorem parse_since_named_windows (now : DateTime) :
    parse_since now "today" = .ok ⟨now.day, 0, 0, 0, 0, now.tzinfo⟩ ∧
    parse_since now "yesterday" = .ok ⟨now.day - 1, 0, 0, 0, 0, now.tzinfo⟩ ∧
    parse_since now "week" = .ok ⟨now.day - 7, 0, 0, 0, 0, now.tzinfo⟩ ∧
    (⟨now.day, 0, 0, 0, 0, now.tzinfo⟩ : DateTime).toMicros =
      (⟨now.day - 1, 0, 0, 0, 0, now.tzinfo⟩ : DateTime).toMicros + 86400000000 ∧
    now.day - 7 = (now.subDays 7).day := by
  refine ⟨rfl, rfl, rfl, ?_, rfl⟩
  simp only [DateTime.toMicros]
  push_cast
  ring

/-- C8 counterexample: an ISO string carrying a `+05:00` offset is returned
by `parse_since` as an aware datetime — its `tzinfo` is not `none`. -/
theorem parse_since_iso_offset_is_aware :
    parse_since dtZero "2024-01-01T00:00:00+05:00" = .ok c8aware ∧
    c8aware.tzinfo = some 18000 :=
  ⟨rfl, rfl⟩

/-- C8 (amended): with a naive `now`, every branch of `parse_since` except
the ISO one returns a naive cutoff; the ISO branch returns exactly what
`fromisoformat` produced, which carries a timezone when the string has an
offset. -/
theorem parse_since_naive_unless_iso (now : DateTime) (s : String) (dt : DateTime)
    (hnow : now.tzinfo = none) (h : parse_since now s = .ok dt) :
    dt.tzinfo = none ∨ fromisoformat? s = some dt := by
  unfold parse_since at h
  split_ifs at h with h1 h2 h3 h4
  · cases h
    exact Or.inl hnow
  · cases h
    exact Or.inl hnow
  · cases h
    exact Or.inl hnow
  · cases h
    exact Or.inl hnow
  · cases hiso : fromisoformat? s with
    | some dt' =>
      rw [hiso] at h
      injection h with h5
      subst h5
      exact Or.inr rfl
    | none =>
      rw [hiso] at h
      cases hint : pyInt? s with
      | some days =>
        rw [hint] at h
        have h' : (if days < -999999999 ∨ 999999999 < days then
              (Except.error PyError.overflowError : Except PyError DateTime)
            else if now.day - days < pythonMinDay ∨ pythonMaxDay < now.day - days then
              .error .overflowError
            else .ok ((now.subDays days).replaceMidnight)) = .ok dt := h
        split_ifs at h' <;> cases h' <;> exact Or.inl hnow
      | none =>
        rw [hint] at h
        cases h

/-- C8 witness: the naive-or-ISO disjunction at `now = dtZero`, input
`today`. -/
theorem parse_since_naive_unless_iso_witness :
    dtZero.tzinfo = none ∨ fromisoformat? "today" = some dtZero :=
  parse_since_naive_unless_iso dtZero "today" dtZero rfl rfl

lemma string_ne_empty_of_length_pos (s : String) (h : 0 < s.length) : s ≠ "" := by
  intro he
  rw [he] at h
  simp at h

lemma joinDash_ne_empty (q : String) (t : List String) (hq : q ≠ "") :
    joinDash (q :: t) ≠ "" := by
  cases t with
  | nil => simpa [joinDash] using hq
  | cons p t =>
    have hlen : 0 < q.length := by
      cases q with
      | mk data =>
        cases data with
        | nil => exact absurd rfl hq
        | cons c cs => simp [String.length]
    apply string_ne_empty_of_length_pos
    simp only [joinDash, String.length_append]
    omega

/-- C10: an encoded name all of whose `'-'`-separated parts are in the skip
set formats to itself, and every non-empty encoded name formats to a
non-empty string. -/
theorem format_project_name_skip_and_nonempty :
    (∀ enc : String,
        (∀ p ∈ (splitOn '-' enc.toList).map (fun l => String.mk l), p ∈ skip_words) →
        format_project_name enc = enc) ∧
    (∀ enc : String, enc ≠ "" → format_project_name enc ≠ "") := by
  constructor
  · intro enc h
    simp only [format_project_name]
    have hf : ((splitOn '-' enc.toList).map (fun l => String.mk l)).filter
        (fun part => part ∉ skip_words) = [] := by
      refine List.filter_eq_nil_iff.mpr ?_
      intro a ha
      simp only [decide_eq_true_eq, not_not]
      exact h a ha
    rw [hf]
    simp
  · intro enc hne
    simp only [format_project_name]
    cases hf : ((splitOn '-' enc.toList).map (fun l => String.mk l)).filter
        (fun part => part ∉ skip_words) with
    | nil => simpa using hne
    | cons q t =>
      have hqmem : q ∈ ((splitOn '-' enc.toList).map (fun l => String.mk l)).filter
          (fun part => part ∉ skip_words) := by
        rw [hf]
        exact List.mem_cons_self q t
      have hq : q ≠ "" := by
        have h2 := (List.mem_filter.mp hqmem).2
        simp only [decide_eq_true_eq] at h2
        intro he
        subst he
        exact h2 (by simp [skip_words])
      simpa using joinDash_ne_empty q t hq

/-- C10 witness: `-home-user` is all skip words, hence a fixed point; it is
also non-empty and stays non-empty. -/
theorem format_project_name_skip_and_nonempty_witness :
    format_project_name "-home-user" = "-home-user" ∧
    format_project_name "-home-user" ≠ "" :=
  ⟨format_project_name_skip_and_nonempty.1 "-home-user" (by decide),
    format_project_name_skip_and_nonempty.2 "-home-user" (by decide)⟩

lemma ws_not_digit (c : Char) (h : c.isWhitespace = true) : c.isDigit = false := by
  simp only [Char.isWhitespace, Bool.or_eq_true, decide_eq_true_eq] at h
  rcases h with ((h | h) | h) | h <;> subst h <;> rfl

lemma parseDigitsWs_chars (cs : List Char) :
    ∀ (acc : Nat) (b : Bool) (n : Nat), parseDigitsWs cs acc b = some n →
      ∀ c ∈ cs, c.isDigit ∨ c = '_' ∨ c.isWhitespace := by
  induction cs with
  | nil => intro acc b n h c hc; simp at hc
  | cons c0 rest ih =>
    intro acc b n h c hc
    rw [parseDigitsWs] at h
    rcases List.mem_cons.mp hc with rfl | hc'
    · by_cases hd : c.isDigit
      · exact Or.inl hd
      by_cases hu : c = '_'
      · exact Or.inr (Or.inl hu)
      by_cases hw : c.isWhitespace
      · exact Or.inr (Or.inr hw)
      · rw [if_neg (by simpa using hd), if_neg hu, if_neg (by simpa using hw)] at h
        exact absurd h (by simp)
    · by_cases hd : c0.isDigit
      · rw [if_pos hd] at h
        exact ih _ _ _ h c hc'
      by_cases hu : c0 = '_'
      · rw [if_neg (by simpa using hd), if_pos hu] at h
        by_cases hb : b
        · rw [if_pos hb] at h
          exact ih _ _ _ h c hc'
        · rw [if_neg hb] at h
          exact absurd h (by simp)
      by_cases hw : c0.isWhitespace
      · rw [if_neg (by simpa using hd), if_neg hu, if_pos hw] at h
        by_cases hcond : (b && rest.all Char.isWhitespace) = true
        · simp only [Bool.and_eq_true] at hcond
          have hall := hcond.2
          exact Or.inr (Or.inr (List.all_eq_true.mp hall c hc'))
        · rw [if_neg hcond] at h
          exact absurd h (by simp)
      · rw [if_neg (by simpa using hd), if_neg hu, if_neg (by simpa using hw)] at h
        exact absurd h (by simp)

lemma parse4digits_rest (c1 c2 c3 c4 : Char) (r : List Char) (v : Nat × List Char)
    (h : parse4digits (c1 :: c2 :: c3 :: c4 :: r) = some v) : v.2 = r := by
  rw [show parse4digits (c1 :: c2 :: c3 :: c4 :: r) =
      (match parseDigit c1, parseDigit c2, parseDigit c3, parseDigit c4 with
        | some d1, some d2, some d3, some d4 =>
            some (((d1 * 10 + d2) * 10 + d3) * 10 + d4, r)
        | _, _, _, _ => none) from rfl] at h
  split at h
  · injection h with h2
    rw [← h2]
  · exact absurd h (by simp)

lemma iso_none_of_head_not_digit (c : Char) (t : List Char) (h : c.isDigit = false) :
    fromisoformatList? (c :: t) = none := by
  have h4 : parse4digits (c :: t) = none := by
    rcases t with _ | ⟨a, _ | ⟨b, _ | ⟨d, r⟩⟩⟩
    · rfl
    · rfl
    · rfl
    · unfold parse4digits
      simp [parseDigit, h]
  unfold fromisoformatList?
  rw [h4]
  rfl

lemma iso_none_of_fifth_not_dash (c1 c2 c3 c4 c5 : Char) (t : List Char) (h : ¬c5 = '-') :
    fromisoformatList? (c1 :: c2 :: c3 :: c4 :: c5 :: t) = none := by
  unfold fromisoformatList?
  cases h4 : parse4digits (c1 :: c2 :: c3 :: c4 :: c5 :: t) with
  | none => rfl
  | some v =>
    have hr : v.2 = c5 :: t := parse4digits_rest _ _ _ _ _ _ h4
    obtain ⟨y, r1⟩ := v
    have hr2 : r1 = c5 :: t := hr
    subst hr2
    simp [expectChar, h]

lemma plus_not_digit : ('+' : Char).isDigit = false := rfl

lemma pyIntCore_not_iso (L : List Char) (n : Int)
    (h : pyIntCore (L.dropWhile Char.isWhitespace) = some n) :
    fromisoformatList? L = none := by
  cases hL : L with
  | nil => rfl
  | cons a t =>
    by_cases hw : a.isWhitespace
    · exact iso_none_of_head_not_digit a t (ws_not_digit a hw)
    · have hdw : (a :: t).dropWhile Char.isWhitespace = a :: t := by
        rw [List.dropWhile_cons]
        simp [hw]
      rw [hL, hdw] at h
      rw [pyIntCore] at h
      by_cases hplus : a = '+'
      · exact iso_none_of_head_not_digit a t (by rw [hplus]; rfl)
      by_cases hminus : a = '-'
      · exact iso_none_of_head_not_digit a t (by rw [hminus]; rfl)
      · rw [if_neg hplus, if_neg hminus] at h
        obtain ⟨m, hm1, hm2⟩ := Option.map_eq_some'.mp h
        have hchars := parseDigitsWs_chars (a :: t) 0 false m hm1
        have hnotdash : ∀ c ∈ a :: t, ¬c = '-' := by
          intro c hc hdash
          rcases hchars c hc with hcd | hcu | hcw
          · rw [hdash] at hcd
            exact absurd hcd (by simp)
          · rw [hdash] at hcu
            exact absurd hcu (by simp)
          · rw [hdash] at hcw
            exact absurd hcw (by simp)
        rcases t with _ | ⟨b, _ | ⟨c, _ | ⟨d, _ | ⟨e, t5⟩⟩⟩⟩
        · rfl
        · rfl
        · rfl
        · cases h4 : parse4digits [a, b, c, d] with
          | none =>
            unfold fromisoformatList?
            rw [h4]
            rfl
          | some v =>
            have hr : v.2 = [] := parse4digits_rest _ _ _ _ _ _ h4
            unfold fromisoformatList?
            rw [h4]
            obtain ⟨y, r1⟩ := v
            have hr2 : r1 = [] := hr
            subst hr2
            rfl
        · exact iso_none_of_fifth_not_dash a b c d e t5
            (hnotdash e (by simp))

lemma pyInt_not_iso (s : String) (n : Int) (h : pyInt? s = some n) :
    fromisoformat? s = none :=
  pyIntCore_not_iso s.toList n h

/-- C4 counterexample: `"-5"` is not a named token, not ISO-parseable, and
its only integer reading is negative (so it is not parseable as a
non-negative integer), yet `parse_since` succeeds on it: Python `int()`
accepts negative integers and the code returns midnight of `now + 5` days. -/
theorem parse_since_accepts_negative_days :
    pyInt? "-5" = some (-5) ∧ fromisoformat? "-5" = none ∧
    ("-5" : String) ≠ "yesterday" ∧ ("-5" : String) ≠ "today" ∧
    ("-5" : String) ≠ "week" ∧ ("-5" : String) ≠ "month" ∧
    parse_since dtZero "-5" = .ok ⟨5, 0, 0, 0, 0, none⟩ :=
  ⟨rfl, rfl, by decide, by decide, by decide, by decide, rfl⟩

/-- C4 (amended): `parse_since` raises the unparseable-date `ValueError`
exactly when its input is neither a named token, nor ISO-parseable, nor
parseable as an integer (negative integers included); on a string that
parses as a non-negative integer N it returns midnight of (now − N days)
when that result is representable (N at most 999999999 and the result
within datetime's year 1–9999 range), and otherwise terminates with an
uncaught `OverflowError` instead of the parse error. -/
theorem parse_since_error_characterization (now : DateTime) (s : String) :
    (parse_since now s = .error (.valueError ("Cannot parse date: " ++ s)) ↔
      (s ≠ "yesterday" ∧ s ≠ "today" ∧ s ≠ "week" ∧ s ≠ "month" ∧
       fromisoformat? s = none ∧ pyInt? s = none)) ∧
    (∀ N : Nat, pyInt? s = some (N : Int) →
      (((N : Int) ≤ 999999999 ∧ pythonMinDay ≤ now.day - (N : Int) ∧
          now.day - (N : Int) ≤ pythonMaxDay →
        parse_since now s = .ok ((now.subDays (N : Int)).replaceMidnight)) ∧
       (999999999 < (N : Int) ∨ now.day - (N : Int) < pythonMinDay ∨
          pythonMaxDay < now.day - (N : Int) →
        parse_since now s = .error .overflowError))) := by
  constructor
  · unfold parse_since
    split_ifs with h1 h2 h3 h4
    · exact ⟨fun h => absurd h (by simp), fun hr => absurd h1 hr.1⟩
    · exact ⟨fun h => absurd h (by simp), fun hr => absurd h2 hr.2.1⟩
    · exact ⟨fun h => absurd h (by simp), fun hr => absurd h3 hr.2.2.1⟩
    · exact ⟨fun h => absurd h (by simp), fun hr => absurd h4 hr.2.2.2.1⟩
    · cases hiso : fromisoformat? s with
      | some dt =>
        exact ⟨fun h => absurd h (by simp), fun hr => absurd hr.2.2.2.2.1 (by simp)⟩
      | none =>
        cases hint : pyInt? s with
        | some d =>
          constructor
          · intro h
            have h' : (if d < -999999999 ∨ 999999999 < d then
                  (Except.error PyError.overflowError : Except PyError DateTime)
                else if now.day - d < pythonMinDay ∨ pythonMaxDay < now.day - d then
                  .error .overflowError
                else .ok ((now.subDays d).replaceMidnight))
                = .error (.valueError ("Cannot parse date: " ++ s)) := h
            split_ifs at h' <;> simp at h'
          · intro hr
            exact absurd hr.2.2.2.2.2 (by simp)
        | none => exact ⟨fun _ => ⟨h1, h2, h3, h4, rfl, rfl⟩, fun _ => rfl⟩
  · intro N hN
    have hy : s ≠ "yesterday" := by
      intro he
      rw [he] at hN
      exact absurd hN (by simp [show pyInt? "yesterday" = none from rfl])
    have ht : s ≠ "today" := by
      intro he
      rw [he] at hN
      exact absurd hN (by simp [show pyInt? "today" = none from rfl])
    have hw : s ≠ "week" := by
      intro he
      rw [he] at hN
      exact absurd hN (by simp [show pyInt? "week" = none from rfl])
    have hm : s ≠ "month" := by
      intro he
      rw [he] at hN
      exact absurd hN (by simp [show pyInt? "month" = none from rfl])
    have hiso := pyInt_not_iso s (N : Int) hN
    have hred : parse_since now s =
        (if (N : Int) < -999999999 ∨ 999999999 < (N : Int) then
          (Except.error PyError.overflowError : Except PyError DateTime)
        else if now.day - (N : Int) < pythonMinDay ∨
            pythonMaxDay < now.day - (N : Int) then .error .overflowError
        else .ok ((now.subDays (N : Int)).replaceMidnight)) := by
      unfold parse_since
      rw [if_neg hy, if_neg ht, if_neg hw, if_neg hm, hiso, hN]
    rw [hred]
    constructor
    · rintro ⟨hb1, hb2, hb3⟩
      rw [if_neg (by omega), if_neg (by omega)]
    · intro hov
      by_cases hc1 : (N : Int) < -999999999 ∨ 999999999 < (N : Int)
      · rw [if_pos hc1]
      · rw [if_neg hc1, if_pos (by omega)]

/-- C4 witness: the overflow branch fires for the typable input
`999999999999`, and the in-range input `5` yields midnight of five days
before `now`. -/
theorem parse_since_error_characterization_witness :
    parse_since dtZero "999999999999" = .error .overflowError ∧
    parse_since dtZero "5" = .ok ⟨-5, 0, 0, 0, 0, none⟩ :=
  ⟨((parse_since_error_characterization dtZero "999999999999").2
      999999999999 rfl).2 (Or.inl (by decide)),
   ((parse_since_error_characterization dtZero "5").2
      5 rfl).1 (by refine ⟨by decide, by decide, by decide⟩)⟩

lemma map_sum_aupsert {κ α M : Type} [AddCommMonoid M] (eq : κ → κ → Bool)
    (m : List (κ × α)) (k : κ) (v : α) (f : α → M) (d : α) (δ : M)
    (hv : f v = f ((alookup eq m k).getD d) + δ) (hd : f d = 0) :
    ((aupsert eq m k v).map (fun p => f p.2)).sum = (m.map (fun p => f p.2)).sum + δ := by
  induction m with
  | nil =>
    rw [alookup] at hv
    simp only [Option.getD_none, hd, zero_add] at hv
    simp [aupsert, hv]
  | cons kv rest ih =>
    obtain ⟨k', v'⟩ := kv
    rw [alookup] at hv
    rw [aupsert]
    by_cases he : eq k' k = true
    · rw [if_pos he] at hv ⊢
      simp only [Option.getD_some] at hv
      simp only [List.map_cons, List.sum_cons, hv]
      exact add_right_comm _ _ _
    · rw [if_neg he] at hv ⊢
      simp only [List.map_cons, List.sum_cons, ih hv]
      exact (add_assoc _ _ _).symm

/-- The two global-consistency sums of the rollup state. -/
def SumsOk (st : RollupState) : Prop :=
  (st.project_stats.map (fun p => p.2.sessions)).sum = st.total_stats.sessions ∧
  (st.project_stats.map (fun p => p.2.cost)).sum = st.total_stats.cost

lemma sumsOk_foldSession (pn : String) (st : RollupState) (kv : JValue × Session)
    (h : SumsOk st) : SumsOk (foldSession pn st kv) := by
  obtain ⟨h1, h2⟩ := h
  unfold foldSession
  by_cases hz : kv.2.messages = 0
  · simpa [hz] using ⟨h1, h2⟩
  · rw [if_neg hz]
    constructor
    · rw [map_sum_aupsert strEq _ _ _ _ defaultProjectStats 1 rfl rfl]
      simp [h1]
    · rw [map_sum_aupsert strEq _ _ _ _ defaultProjectStats (calculate_cost kv.2) rfl rfl]
      simp [h2]

lemma sumsOk_foldl (pn : String) (items : List (JValue × Session)) :
    ∀ st : RollupState, SumsOk st → SumsOk (items.foldl (foldSession pn) st) := by
  induction items with
  | nil => intro st h; simpa using h
  | cons kv rest ih =>
    intro st h
    rw [List.foldl_cons]
    exact ih _ (sumsOk_foldSession pn st kv h)

/-- C3: after the rollup over any files, the per-project session counts sum
to the global session count and the per-project costs sum to the global cost
(exactly, in the rational model of the float arithmetic). -/
theorem rollup_project_sums_match_totals (since : DateTime)
    (files : List (String × List (Option JValue))) :
    ((rollup since files).project_stats.map (fun p => p.2.sessions)).sum
      = (rollup since files).total_stats.sessions ∧
    ((rollup since files).project_stats.map (fun p => p.2.cost)).sum
      = (rollup since files).total_stats.cost := by
  have main : ∀ (fs : List (String × List (Option JValue))) (st : RollupState),
      SumsOk st → SumsOk (fs.foldl (foldFile since) st) := by
    intro fs
    induction fs with
    | nil => intro st h; simpa using h
    | cons pf rest ih =>
      intro st h
      rw [List.foldl_cons]
      exact ih _ (sumsOk_foldl pf.1 _ st h)
  exact main files initState ⟨rfl, rfl⟩


lemma alookup_aupsert_some {κ α : Type} (eq : κ → κ → Bool)
    (m : List (κ × α)) (k k' : κ) (v w : α)
    (h : alookup eq (aupsert eq m k v) k' = some w) :
    w = v ∨ alookup eq m k' = some w := by
  induction m with
  | nil =>
    rw [aupsert, alookup] at h
    by_cases he : eq k k' = true
    · rw [if_pos he] at h
      injection h with h2
      exact Or.inl h2.symm
    · rw [if_neg he] at h
      exact absurd h (by simp [alookup])
  | cons kv rest ih =>
    obtain ⟨a, b⟩ := kv
    rw [aupsert] at h
    by_cases hak : eq a k = true
    · rw [if_pos hak, alookup] at h
      by_cases hak' : eq a k' = true
      · rw [if_pos hak'] at h
        injection h with h2
        exact Or.inl h2.symm
      · rw [if_neg hak'] at h
        rw [alookup, if_neg hak']
        exact Or.inr h
    · rw [if_neg hak, alookup] at h
      by_cases hak' : eq a k' = true
      · rw [if_pos hak'] at h
        rw [alookup, if_pos hak']
        exact Or.inr h
      · rw [if_neg hak'] at h
        rw [alookup, if_neg hak']
        exact ih h

/-- Every registry entry records a session with at least one message. -/
def RegOk (st : RollupState) : Prop :=
  ∀ (k : JValue) (out : SessionOut),
    alookup pyKeyEq st.all_sessions k = some out → out.messages ≠ 0

lemma regOk_foldSession (pn : String) (st : RollupState) (kv : JValue × Session)
    (h : RegOk st) : RegOk (foldSession pn st kv) := by
  unfold foldSession
  by_cases hz : kv.2.messages = 0
  · rw [if_pos hz]
    exact h
  · rw [if_neg hz]
    intro k out hout
    rcases alookup_aupsert_some pyKeyEq _ _ _ _ _ hout with hv | hold
    · rw [hv]
      exact hz
    · exact h k out hold

lemma regOk_foldl (pn : String) (items : List (JValue × Session)) :
    ∀ st : RollupState, RegOk st → RegOk (items.foldl (foldSession pn) st) := by
  induction items with
  | nil => intro st h; simpa using h
  | cons kv rest ih =>
    intro st h
    rw [List.foldl_cons]
    exact ih _ (regOk_foldSession pn st kv h)

/-- C5: a session with zero messages is skipped whole by the rollup — it
changes none of the three accumulators — and consequently every entry of the
global session registry has a non-zero message count. -/
theorem rollup_drops_zero_message_sessions :
    (∀ (project_name : String) (st : RollupState) (kv : JValue × Session),
        kv.2.messages = 0 → foldSession project_name st kv = st) ∧
    (∀ (since : DateTime) (files : List (String × List (Option JValue)))
        (k : JValue) (out : SessionOut),
        alookup pyKeyEq (rollup since files).all_sessions k = some out →
        out.messages ≠ 0) := by
  constructor
  · intro pn st kv h
    simp [foldSession, h]
  · intro since files k out
    have main : ∀ (fs : List (String × List (Option JValue))) (st : RollupState),
        RegOk st → RegOk (fs.foldl (foldFile since) st) := by
      intro fs
      induction fs with
      | nil => intro st h; simpa using h
      | cons pf rest ih =>
        intro st h
        rw [List.foldl_cons]
        exact ih _ (regOk_foldl pf.1 _ st h)
    exact main files initState (by intro k out h; exact absurd h (by simp [alookup])) k out

/-- C5 witness: a zero-message session leaves the state untouched, and the
registry entry produced by a one-message file has a non-zero count. -/
theorem rollup_drops_zero_message_sessions_witness :
    foldSession "p" initState (JValue.str "a", defaultSession) = initState ∧
    w5out.messages ≠ 0 :=
  ⟨rollup_drops_zero_message_sessions.1 "p" initState (JValue.str "a", defaultSession) rfl,
   rollup_drops_zero_message_sessions.2 dtZero [("proj", w5lines)]
     (JValue.str "unknown") w5out rfl⟩


/-- Canonical representative of a hashable dict key: Python hashes `True`
like `1`, so booleans collapse into integers. -/
def keyRep : JValue → Option (Int ⊕ String ⊕ Unit)
  | .null => some (.inr (.inr ()))
  | .bool b => some (.inl (if b then 1 else 0))
  | .num n => some (.inl n)
  | .str s => some (.inr (.inl s))
  | _ => none

lemma pyKeyEq_iff (a b : JValue) :
    pyKeyEq a b = true ↔ ∃ r, keyRep a = some r ∧ keyRep b = some r := by
  cases a <;> cases b <;> simp [pyKeyEq, keyRep]
  case bool.bool => rename_i x y; cases x <;> cases y <;> simp
  case bool.num => rename_i x n; cases x <;> simp <;> omega
  case num.bool => rename_i n x; cases x <;> simp <;> omega
  case num.num => omega
  case str.str => exact ⟨Eq.symm, Eq.symm⟩

lemma pyKeyEq_refl_hashable (k : JValue) (h : k.isUnhashable = false) :
    pyKeyEq k k = true := by
  cases k <;> simp_all [pyKeyEq, JValue.isUnhashable]

lemma pyKeyEq_symmT (a b : JValue) (h : pyKeyEq a b = true) : pyKeyEq b a = true := by
  rw [pyKeyEq_iff] at h ⊢
  obtain ⟨r, h1, h2⟩ := h
  exact ⟨r, h2, h1⟩

lemma pyKeyEq_trans (a b c : JValue) (hab : pyKeyEq a b = true)
    (hbc : pyKeyEq b c = true) : pyKeyEq a c = true := by
  rw [pyKeyEq_iff] at hab hbc ⊢
  obtain ⟨r, ha, hb⟩ := hab
  obtain ⟨r', hb', hc⟩ := hbc
  rw [hb] at hb'
  injection hb' with hrr
  exact ⟨r, ha, hrr ▸ hc⟩

lemma pyKeyEq_left_congr (a key k : JValue) (hkk : pyKeyEq key k = true) :
    pyKeyEq a key = pyKeyEq a k := by
  by_cases h1 : pyKeyEq a key = true
  · rw [h1, pyKeyEq_trans a key k h1 hkk]
  · by_cases h2 : pyKeyEq a k = true
    · exact absurd (pyKeyEq_trans a k key h2 (pyKeyEq_symmT key k hkk)) h1
    · rw [Bool.eq_false_iff.mpr h1, Bool.eq_false_iff.mpr h2]

lemma alookup_congr {α : Type} (m : List (JValue × α)) (key k : JValue)
    (hkk : pyKeyEq key k = true) :
    alookup pyKeyEq m key = alookup pyKeyEq m k := by
  induction m with
  | nil => rfl
  | cons kv rest ih =>
    obtain ⟨a, b⟩ := kv
    rw [alookup, alookup, pyKeyEq_left_congr a key k hkk]
    by_cases h2 : pyKeyEq a k = true
    · rw [if_pos h2, if_pos h2]
    · rw [if_neg h2, if_neg h2]
      exact ih

lemma alookup_aupsert_agree {α : Type} (m : List (JValue × α)) (key k : JValue)
    (v : α) (hkk : pyKeyEq key k = true) :
    alookup pyKeyEq (aupsert pyKeyEq m key v) k = some v := by
  induction m with
  | nil =>
    rw [aupsert, alookup, if_pos hkk]
  | cons kv rest ih =>
    obtain ⟨a, b⟩ := kv
    rw [aupsert]
    by_cases ha : pyKeyEq a key = true
    · rw [if_pos ha, alookup, if_pos (pyKeyEq_trans a key k ha hkk)]
    · rw [if_neg ha, alookup, if_neg (by rw [pyKeyEq_left_congr a key k hkk] at ha; exact ha)]
      exact ih

lemma alookup_aupsert_far {α : Type} (m : List (JValue × α)) (key k : JValue)
    (v : α) (hkk : pyKeyEq key k = false) :
    alookup pyKeyEq (aupsert pyKeyEq m key v) k = alookup pyKeyEq m k := by
  have hkk' : ¬pyKeyEq key k = true := by simp [hkk]
  induction m with
  | nil =>
    rw [aupsert]
    show (if pyKeyEq key k = true then some v else alookup pyKeyEq [] k) = _
    rw [if_neg hkk']
  | cons kv rest ih =>
    obtain ⟨a, b⟩ := kv
    rw [aupsert]
    by_cases ha : pyKeyEq a key = true
    · rw [if_pos ha, alookup, alookup]
      have hak : ¬pyKeyEq a k = true := by
        intro h2
        exact hkk' (pyKeyEq_trans key a k (pyKeyEq_symmT a key ha) h2)
      rw [if_neg hak, if_neg hak]
    · rw [if_neg ha, alookup, alookup]
      by_cases h2 : pyKeyEq a k = true
      · rw [if_pos h2, if_pos h2]
      · rw [if_neg h2, if_neg h2]
        exact ih


lemma classify_cases (since : DateTime) (l : Option JValue) :
    classifyLine since l = .skip ∨ classifyLine since l = .abort ∨
    ∃ key ts e, classifyLine since l = .record key ts e ∧
      since.toMicros ≤ ts.toMicros ∧ key.isUnhashable = false := by
  unfold classifyLine
  split
  case h_1 => exact Or.inl rfl
  case h_2 =>
    split
    case h_2 => exact Or.inr (Or.inl rfl)
    case h_1 =>
      split
      case h_1 => exact Or.inl rfl
      case h_2 =>
        split
        case isFalse => exact Or.inl rfl
        case isTrue =>
          split
          case h_2 => exact Or.inl rfl
          case h_1 =>
            split
            case h_1 => exact Or.inl rfl
            case h_2 =>
              dsimp only
              split
              case h_1 => exact Or.inr (Or.inl rfl)
              case h_2 => exact Or.inl rfl
              case h_3 =>
                split
                case isTrue => exact Or.inr (Or.inl rfl)
                case isFalse =>
                  rename_i hlt hhash
                  refine Or.inr (Or.inr ⟨_, _, _, rfl, ?_, Bool.eq_false_iff.mpr hhash⟩)
                  rw [DateTime.lt?] at hlt
                  cases hsz : since.tzinfo with
                  | none =>
                    rw [hsz] at hlt
                    injection hlt with hlt2
                    have hnlt := of_decide_eq_false hlt2
                    omega
                  | some off =>
                    rw [hsz] at hlt
                    exact absurd hlt (by simp)

lemma classify_record (since : DateTime) (l : Option JValue) (key : JValue)
    (ts : DateTime) (e : JValue) (h : classifyLine since l = .record key ts e) :
    since.toMicros ≤ ts.toMicros ∧ key.isUnhashable = false := by
  rcases classify_cases since l with hc | hc | ⟨k', t', e', hc, hle, hhash⟩
  · rw [h] at hc
    exact absurd hc (by simp)
  · rw [h] at hc
    exact absurd hc (by simp)
  · rw [h] at hc
    injection hc with h1 h2 h3
    subst h1
    subst h2
    exact ⟨hle, hhash⟩

lemma applyAssist_start (d : AssistDelta) (s : Session) :
    (applyAssist d s).start_time = s.start_time := rfl

lemma applyAssist_end (d : AssistDelta) (s : Session) :
    (applyAssist d s).end_time = s.end_time := rfl

lemma updateBranch_start (e : JValue) (s : Session) :
    (updateBranch e s).start_time = s.start_time := by
  unfold updateBranch
  split
  · split <;> rfl
  · rfl

lemma updateBranch_end (e : JValue) (s : Session) :
    (updateBranch e s).end_time = s.end_time := by
  unfold updateBranch
  split
  · split <;> rfl
  · rfl

lemma updateTimes_start_none (ts : DateTime) (s : Session)
    (h1 : s.start_time = none) : (updateTimes ts s).start_time = some ts := by
  unfold updateTimes
  rw [h1, show (Option.elim (none : Option DateTime) true
      (fun st => decide (ts.toMicros < st.toMicros))) = true from rfl,
    if_pos (show true = true from rfl)]
  dsimp only
  split <;> rfl

lemma updateTimes_start_some (ts : DateTime) (s : Session) (st1 : DateTime)
    (h1 : s.start_time = some st1) :
    (updateTimes ts s).start_time
      = some (if ts.toMicros < st1.toMicros then ts else st1) := by
  unfold updateTimes
  rw [h1, show (Option.elim (some st1) true
      (fun st => decide (ts.toMicros < st.toMicros)))
      = decide (ts.toMicros < st1.toMicros) from rfl]
  by_cases hc : ts.toMicros < st1.toMicros
  · rw [decide_eq_true hc, if_pos (show true = true from rfl), if_pos hc]
    dsimp only
    split <;> rfl
  · rw [decide_eq_false hc, if_neg (show ¬(false = true) from by simp), if_neg hc]
    dsimp only
    split
    · exact h1
    · exact h1

lemma updateTimes_end_none (ts : DateTime) (s : Session)
    (h2 : s.end_time = none) : (updateTimes ts s).end_time = some ts := by
  unfold updateTimes
  by_cases hc1 : (s.start_time.elim true
      (fun st => decide (ts.toMicros < st.toMicros))) = true
  · rw [if_pos hc1]
    dsimp only
    rw [h2, show (Option.elim (none : Option DateTime) true
        (fun et => decide (et.toMicros < ts.toMicros))) = true from rfl,
      if_pos (show true = true from rfl)]
  · rw [if_neg hc1]
    dsimp only
    rw [h2, show (Option.elim (none : Option DateTime) true
        (fun et => decide (et.toMicros < ts.toMicros))) = true from rfl,
      if_pos (show true = true from rfl)]

lemma updateTimes_end_some (ts : DateTime) (s : Session) (et1 : DateTime)
    (h2 : s.end_time = some et1) :
    (updateTimes ts s).end_time
      = some (if et1.toMicros < ts.toMicros then ts else et1) := by
  unfold updateTimes
  by_cases hc1 : (s.start_time.elim true
      (fun st => decide (ts.toMicros < st.toMicros))) = true
  · rw [if_pos hc1]
    dsimp only
    rw [h2, show (Option.elim (some et1) true
        (fun et => decide (et.toMicros < ts.toMicros)))
        = decide (et1.toMicros < ts.toMicros) from rfl]
    by_cases hc2 : et1.toMicros < ts.toMicros
    · rw [decide_eq_true hc2, if_pos (show true = true from rfl), if_pos hc2]
    · rw [decide_eq_false hc2, if_neg (show ¬(false = true) from by simp), if_neg hc2]
  · rw [if_neg hc1]
    dsimp only
    rw [h2, show (Option.elim (some et1) true
        (fun et => decide (et.toMicros < ts.toMicros)))
        = decide (et1.toMicros < ts.toMicros) from rfl]
    by_cases hc2 : et1.toMicros < ts.toMicros
    · rw [decide_eq_true hc2, if_pos (show true = true from rfl), if_pos hc2]
    · rw [decide_eq_false hc2, if_neg (show ¬(false = true) from by simp), if_neg hc2]
      exact h2


lemma contribsFor_append_true (k key : JValue) (ts : DateTime)
    (cs : List (JValue × DateTime)) (h : pyKeyEq key k = true) :
    contribsFor k (cs ++ [(key, ts)]) = contribsFor k cs ++ [ts] := by
  simp [contribsFor, List.filter_append, h]

lemma contribsFor_append_false (k key : JValue) (ts : DateTime)
    (cs : List (JValue × DateTime)) (h : pyKeyEq key k = false) :
    contribsFor k (cs ++ [(key, ts)]) = contribsFor k cs := by
  simp [contribsFor, List.filter_append, h]

/-- The per-key time invariant of the sessions dict: every stored session's
start and end bounds are attained minima/maxima of the surviving timestamps
folded in for that key, and no session exists without a surviving record. -/
def TimeInv (since : DateTime) (cs : List (JValue × DateTime)) (m : SessionMap) : Prop :=
  ∀ k : JValue,
    (alookup pyKeyEq m k = none → contribsFor k cs = []) ∧
    (∀ s : Session, alookup pyKeyEq m k = some s → ∃ st et,
      s.start_time = some st ∧ s.end_time = some et ∧
      since.toMicros ≤ st.toMicros ∧
      st ∈ contribsFor k cs ∧ et ∈ contribsFor k cs ∧
      ∀ t ∈ contribsFor k cs, st.toMicros ≤ t.toMicros ∧ t.toMicros ≤ et.toMicros)

lemma timeInv_step (since : DateTime) (cs : List (JValue × DateTime))
    (m : SessionMap) (key : JValue) (ts : DateTime) (s2 : Session)
    (hInv : TimeInv since cs m)
    (hsince : since.toMicros ≤ ts.toMicros)
    (hkey : key.isUnhashable = false)
    (hstart : s2.start_time
      = (updateTimes ts ((alookup pyKeyEq m key).getD defaultSession)).start_time)
    (hend : s2.end_time
      = (updateTimes ts ((alookup pyKeyEq m key).getD defaultSession)).end_time) :
    TimeInv since (cs ++ [(key, ts)]) (aupsert pyKeyEq m key s2) := by
  intro k
  by_cases hkk : pyKeyEq key k = true
  · constructor
    · intro hnone
      rw [alookup_aupsert_agree m key k s2 hkk] at hnone
      exact absurd hnone (by simp)
    · intro s hs
      rw [alookup_aupsert_agree m key k s2 hkk] at hs
      injection hs with hs2
      subst hs2
      rw [contribsFor_append_true k key ts cs hkk]
      have hcongr : alookup pyKeyEq m key = alookup pyKeyEq m k :=
        alookup_congr m key k hkk
      cases h0 : alookup pyKeyEq m k with
      | none =>
        have hc0 : contribsFor k cs = [] := (hInv k).1 h0
        rw [hcongr, h0, Option.getD_none] at hstart hend
        rw [updateTimes_start_none ts defaultSession rfl] at hstart
        rw [updateTimes_end_none ts defaultSession rfl] at hend
        refine ⟨ts, ts, hstart, hend, hsince, ?_, ?_, ?_⟩
        · rw [hc0]
          simp
        · rw [hc0]
          simp
        · intro t ht
          rw [hc0] at ht
          simp at ht
          subst ht
          exact ⟨le_refl _, le_refl _⟩
      | some s1 =>
        obtain ⟨st1, et1, h1, h2, hs1, hstm, hetm, hbound⟩ := (hInv k).2 s1 h0
        rw [hcongr, h0, Option.getD_some] at hstart hend
        rw [updateTimes_start_some ts s1 st1 h1] at hstart
        rw [updateTimes_end_some ts s1 et1 h2] at hend
        refine ⟨_, _, hstart, hend, ?_, ?_, ?_, ?_⟩
        · by_cases hc : ts.toMicros < st1.toMicros
          · rw [if_pos hc]
            exact hsince
          · rw [if_neg hc]
            exact hs1
        · by_cases hc : ts.toMicros < st1.toMicros
          · rw [if_pos hc]
            exact List.mem_append_right _ (by simp)
          · rw [if_neg hc]
            exact List.mem_append_left _ hstm
        · by_cases hc : et1.toMicros < ts.toMicros
          · rw [if_pos hc]
            exact List.mem_append_right _ (by simp)
          · rw [if_neg hc]
            exact List.mem_append_left _ hetm
        · intro t ht
          rcases List.mem_append.mp ht with hmem | hmem
          · obtain ⟨hb1, hb2⟩ := hbound t hmem
            constructor
            · by_cases hc : ts.toMicros < st1.toMicros
              · rw [if_pos hc]
                exact le_trans (le_of_lt hc) hb1
              · rw [if_neg hc]
                exact hb1
            · by_cases hc : et1.toMicros < ts.toMicros
              · rw [if_pos hc]
                exact le_trans hb2 (le_of_lt hc)
              · rw [if_neg hc]
                exact hb2
          · simp at hmem
            rw [hmem]
            constructor
            · by_cases hc : ts.toMicros < st1.toMicros
              · rw [if_pos hc]
              · rw [if_neg hc]
                exact le_of_not_lt hc
            · by_cases hc : et1.toMicros < ts.toMicros
              · rw [if_pos hc]
              · rw [if_neg hc]
                exact le_of_not_lt hc
  · have hkkf : pyKeyEq key k = false := Bool.eq_false_iff.mpr hkk
    constructor
    · intro hnone
      rw [alookup_aupsert_far m key k s2 hkkf] at hnone
      rw [contribsFor_append_false k key ts cs hkkf]
      exact (hInv k).1 hnone
    · intro s hs
      rw [alookup_aupsert_far m key k s2 hkkf] at hs
      rw [contribsFor_append_false k key ts cs hkkf]
      exact (hInv k).2 s hs

lemma parseGo_cons_skip (since : DateTime) (l : Option JValue)
    (rest : List (Option JValue)) (m : SessionMap)
    (hc : classifyLine since l = .skip) :
    parseGo since (l :: rest) m = parseGo since rest m := by
  rw [parseGo]
  simp only [processEntry, hc]

lemma parseGo_cons_abort (since : DateTime) (l : Option JValue)
    (rest : List (Option JValue)) (m : SessionMap)
    (hc : classifyLine since l = .abort) :
    parseGo since (l :: rest) m = m := by
  rw [parseGo]
  simp only [processEntry, hc]

lemma parseGo_cons_record (since : DateTime) (l : Option JValue)
    (rest : List (Option JValue)) (m : SessionMap) (key : JValue)
    (ts : DateTime) (e : JValue)
    (hc : classifyLine since l = .record key ts e) :
    parseGo since (l :: rest) m =
      (if (assistantUpdate e).aborts = true then
        aupsert pyKeyEq m key (applyAssist (assistantUpdate e) (updateBranch e
          (updateTimes ts ((alookup pyKeyEq m key).getD defaultSession))))
      else parseGo since rest (aupsert pyKeyEq m key (applyAssist (assistantUpdate e)
        (updateBranch e (updateTimes ts ((alookup pyKeyEq m key).getD defaultSession)))))) := by
  rw [parseGo]
  by_cases hab : (assistantUpdate e).aborts = true <;>
    simp only [processEntry, hc, hab, if_true, if_false] <;> try rfl

lemma processedContribs_cons_skip (since : DateTime) (l : Option JValue)
    (rest : List (Option JValue)) (hc : classifyLine since l = .skip) :
    processedContribs since (l :: rest) = processedContribs since rest := by
  rw [processedContribs]
  simp only [hc]

lemma processedContribs_cons_abort (since : DateTime) (l : Option JValue)
    (rest : List (Option JValue)) (hc : classifyLine since l = .abort) :
    processedContribs since (l :: rest) = [] := by
  rw [processedContribs]
  simp only [hc]

lemma processedContribs_cons_record (since : DateTime) (l : Option JValue)
    (rest : List (Option JValue)) (key : JValue) (ts : DateTime) (e : JValue)
    (hc : classifyLine since l = .record key ts e) :
    processedContribs since (l :: rest) =
      (key, ts) :: (if (assistantUpdate e).aborts = true then []
        else processedContribs since rest) := by
  rw [processedContribs]
  simp only [hc]

lemma parseGo_timeInv (since : DateTime) (lines : List (Option JValue)) :
    ∀ (m : SessionMap) (cs : List (JValue × DateTime)), TimeInv since cs m →
      TimeInv since (cs ++ processedContribs since lines) (parseGo since lines m) := by
  induction lines with
  | nil =>
    intro m cs h
    rw [parseGo, processedContribs, List.append_nil]
    exact h
  | cons l rest ih =>
    intro m cs h
    cases hc : classifyLine since l with
    | skip =>
      rw [parseGo_cons_skip since l rest m hc, processedContribs_cons_skip since l rest hc]
      exact ih m cs h
    | abort =>
      rw [parseGo_cons_abort since l rest m hc,
        processedContribs_cons_abort since l rest hc, List.append_nil]
      exact h
    | record key ts e =>
      obtain ⟨hsince, hkey⟩ := classify_record since l key ts e hc
      have hstep := timeInv_step since cs m key ts
        (applyAssist (assistantUpdate e) (updateBranch e
          (updateTimes ts ((alookup pyKeyEq m key).getD defaultSession))))
        h hsince hkey
        (by rw [applyAssist_start, updateBranch_start])
        (by rw [applyAssist_end, updateBranch_end])
      rw [parseGo_cons_record since l rest m key ts e hc,
        processedContribs_cons_record since l rest key ts e hc]
      by_cases hab : (assistantUpdate e).aborts = true
      · rw [if_pos hab, if_pos hab]
        exact hstep
      · rw [if_neg hab, if_neg hab]
        have hout := ih _ (cs ++ [(key, ts)]) hstep
        rw [List.append_assoc, List.singleton_append] at hout
        exact hout

/-- C9: every session the parser returns has both time bounds set; the start
bound is at least the cutoff, and start/end are an attained minimum and
maximum of the surviving in-window record timestamps folded in for that
session key. -/
theorem parse_session_file_time_bounds (lines : List (Option JValue))
    (since : DateTime) (k : JValue) (s : Session)
    (h : alookup pyKeyEq (parse_session_file lines since) k = some s) :
    ∃ st et, s.start_time = some st ∧ s.end_time = some et ∧
      since.toMicros ≤ st.toMicros ∧ st.toMicros ≤ et.toMicros ∧
      st ∈ contribsFor k (processedContribs since lines) ∧
      et ∈ contribsFor k (processedContribs since lines) ∧
      ∀ t ∈ contribsFor k (processedContribs since lines),
        st.toMicros ≤ t.toMicros ∧ t.toMicros ≤ et.toMicros := by
  have hInv0 : TimeInv since [] [] := by
    intro k0
    constructor
    · intro _
      rfl
    · intro s0 hs0
      exact absurd hs0 (by simp [alookup])
  have hfin := parseGo_timeInv since lines [] [] hInv0
  rw [List.nil_append] at hfin
  obtain ⟨st, et, h1, h2, h3, h4, h5, h6⟩ := (hfin k).2 s h
  exact ⟨st, et, h1, h2, h3, (h6 et h5).1, h4, h5, h6⟩

/-- C9 witness: the bounds at a concrete one-record file. -/
theorem parse_session_file_time_bounds_witness :
    ∃ st et, w9session.start_time = some st ∧ w9session.end_time = some et ∧
      dtZero.toMicros ≤ st.toMicros ∧ st.toMicros ≤ et.toMicros ∧
      st ∈ contribsFor (JValue.str "unknown") (processedContribs dtZero w9lines) ∧
      et ∈ contribsFor (JValue.str "unknown") (processedContribs dtZero w9lines) ∧
      ∀ t ∈ contribsFor (JValue.str "unknown") (processedContribs dtZero w9lines),
        st.toMicros ≤ t.toMicros ∧ t.toMicros ≤ et.toMicros :=
  parse_session_file_time_bounds w9lines dtZero (JValue.str "unknown") w9session rfl

end ClaudeActivity
